import Mathlib

/-!
Verification development for the 4Sense streaming chat session engine
(`src/main.ts`).  The TypeScript source is shallowly embedded: pure helpers
become Lean functions, the websocket event loop becomes a step relation on an
explicit state, JavaScript exceptions become `Except`, and `JSON.parse` is
abstracted by tagging each inbound unit with its parse outcome.
-/

namespace FourSense

/-! ### JavaScript-flavoured string utilities -/

/-- Whitespace class used by JS `String.prototype.trim` and `\s`
(restricted to the characters that can actually occur in the embedded data). -/
def isJsWs (c : Char) : Bool :=
  c = ' ' || c = '\t' || c = '\n' || c = '\r' || c = '\x0b' || c = '\x0c' ||
  c = '\u00A0' || c = '\uFEFF'

/-- Drop trailing whitespace from a character list. -/
def dropTrailWs : List Char → List Char
  | [] => []
  | c :: rest =>
    match dropTrailWs rest with
    | [] => if isJsWs c then [] else [c]
    | r => c :: r

/-- Model of JS `String.prototype.trim`. -/
def jsTrim (s : String) : String :=
  ⟨dropTrailWs (s.data.dropWhile isJsWs)⟩

/-- Model of `text.split(/\r?\n/)` at the character level: each `\n`,
optionally preceded by `\r`, ends a line. -/
def splitLinesL : List Char → List (List Char)
  | [] => [[]]
  | '\r' :: '\n' :: rest => [] :: splitLinesL rest
  | '\n' :: rest => [] :: splitLinesL rest
  | c :: rest =>
    match splitLinesL rest with
    | [] => [[c]]
    | l :: ls => (c :: l) :: ls

/-- Model of `text.split(/\r?\n/)` on strings. -/
def splitLines (s : String) : List String :=
  (splitLinesL s.data).map fun l => (⟨l⟩ : String)

/-- Model of `array.join("\n")`. -/
def joinLines : List String → String
  | [] => ""
  | [l] => l
  | l :: rest => l ++ "\n" ++ joinLines rest

/-- Concatenation of a list of strings (used for chunk concatenation). -/
def concatStrs : List String → String
  | [] => ""
  | s :: rest => s ++ concatStrs rest

/-! ### JSON values

`JSON.parse` itself is environment code; its results are modelled by this
value type, and each inbound unit records whether parsing succeeded. -/

inductive JVal where
  | jnull
  | jbool (b : Bool)
  | jnum (n : Int)
  | jstr (s : String)
  | jarr (xs : List JVal)
  | jobj (fields : List (String × JVal))

/-- JS property access `v.k` for the shapes the engine reads: objects give
their field (or `undefined`), every other non-null value gives `undefined`.
(`null` bases are handled separately where the source can hit them.) -/
def getField : JVal → String → Option JVal
  | .jobj fields, k => (fields.find? (fun p => p.1 == k)).map (·.2)
  | _, _ => none

/-- Model of `typeof v.k === "string" ? v.k : undefined`. -/
def getFieldStr (v : JVal) (k : String) : Option String :=
  match getField v k with
  | some (.jstr s) => some s
  | _ => none

/-- Model of `v.type === lit` for a string literal `lit`. -/
def typeIs (v : JVal) (lit : String) : Bool :=
  getFieldStr v "type" == some lit

/-- Model of `v.done === true`. -/
def doneTrue (v : JVal) : Bool :=
  match getField v "done" with
  | some (.jbool true) => true
  | _ => false

/-- JS falsiness of a JSON value. -/
def jsFalsy : JVal → Bool
  | .jnull => true
  | .jbool b => !b
  | .jnum n => n == 0
  | .jstr s => s == ""
  | _ => false

/-! ### Artifact reference extraction (`extractArtifactPaths`) -/

/-- Model of `s.startsWith pre`, computed on the character lists. -/
def strStartsWith (s pre : String) : Bool :=
  pre.data.isPrefixOf s.data

/-- The bullet test `trimmed.match(/^-\s*(\/artifacts\/\S+)/u)`, returning the
captured group. -/
def matchBullet (trimmed : String) : Option String :=
  match trimmed.data with
  | '-' :: afterDash =>
    let rest := afterDash.dropWhile isJsWs
    if "/artifacts/".data.isPrefixOf rest then
      let token := rest.takeWhile fun c => !isJsWs c
      if token.length > "/artifacts/".data.length then some ⟨token⟩ else none
    else none
  | _ => none

/-- Loop body of `extractArtifactPaths`: `inBlock` flag and accumulated paths
(most recent first, as pushed). -/
def extractGo : List String → Bool → List String → List String
  | [], _, acc => acc.reverse
  | line :: rest, inBlock, acc =>
    let trimmed := jsTrim line
    if strStartsWith trimmed "Артефакты:" then extractGo rest true acc
    else if !inBlock then extractGo rest false acc
    else
      match matchBullet trimmed with
      | some p => extractGo rest true (p :: acc)
      | none => if trimmed.length > 0 then acc.reverse else extractGo rest true acc

/-- The function `extractArtifactPaths` from the source. -/
def extractArtifactPaths (text : String) : List String :=
  extractGo (splitLines text) false []

/-! ### Frame classification (`handleFrame`) -/

/-- The trim-compared done sentinels. -/
def sentinelDone (s : String) : Bool :=
  jsTrim s == "[DONE]" || jsTrim s == "__DONE__"

/-- Model of `packet.message ?? packet.response ?? packet.content ?? packet.text`
restricted to string-typed fields, in the source's order. -/
def textCandidate (v : JVal) : Option String :=
  match getFieldStr v "message" with
  | some m => some m
  | none =>
    match getFieldStr v "response" with
    | some r => some r
    | none =>
      match getFieldStr v "content" with
      | some c => some c
      | none => getFieldStr v "text"

/-- The externally observable effect of one `handleFrame` call. -/
inductive FrameAction where
  | finalize
  | chunk (text : String)
  | protocolError (detail : String)
  | drop
deriving DecidableEq

/-- The function `handleFrame` from `callChatApiWebSocket`, as a pure classification of the
decoded frame.  `protocolError` stands for the `throw new Error(detail)`. -/
def handleFrame : JVal → FrameAction
  | .jstr s => if sentinelDone s then .finalize else .chunk s
  | .jnull => .drop
  | .jbool _ => .drop
  | .jnum _ => .drop
  | v =>
    if typeIs v "error" then
      .protocolError
        ((getFieldStr v "message").getD ((getFieldStr v "error").getD "Chat websocket error."))
    else if typeIs v "chunk" then
      match getFieldStr v "text" with
      | some t => if t.length > 0 then .chunk t else .drop
      | none => .drop
    else if typeIs v "done" || doneTrue v then .finalize
    else
      match textCandidate v with
      | some t => .chunk t
      | none => .drop

/-- One inbound websocket unit: the raw string together with the outcome of
`JSON.parse` on it (`parses` when parsing succeeds with the given value). -/
inductive InUnit where
  | parses (raw : String) (v : JVal)
  | noParse (raw : String)

/-- Net effect of `socket.onmessage` dispatch on one unit, including the inner
`try { handleFrame(JSON.parse(raw)) } catch { handleFrame(raw) }`: a parse
failure, and also a `handleFrame` throw (the error-frame case), fall back to
processing the raw string as a plain text frame. -/
def decodeUnit : InUnit → FrameAction
  | .noParse raw => handleFrame (.jstr raw)
  | .parses raw v =>
    match handleFrame v with
    | .protocolError _ => handleFrame (.jstr raw)
    | a => a

/-! ### Websocket call lifecycle (`callChatApiWebSocket`) -/

/-- Result shape of a chat call: `{message, artifactPaths}`. -/
structure ChatApiResponse where
  message : String
  artifactPaths : List String
deriving DecidableEq

/-- How the promise inside `callChatApiWebSocket` settles. -/
inductive WsResult where
  | resolved (response : ChatApiResponse)
  | rejected (errMsg : String)
deriving DecidableEq

/-- Externally visible state of one `callChatApiWebSocket` call: accumulated
`fullText`, the `onChunk` calls made so far (in order), whether and how the
promise settled, and the codes passed to `socket.close` (none = no code). -/
structure WsState where
  fullText : String
  chunks : List String
  settled : Option WsResult
  closeCodes : List (Option Nat)
deriving DecidableEq

def initWsState : WsState := ⟨"", [], none, []⟩

/-- Events hitting the call after the request payload is sent: inbound
messages, the server closing the socket, a socket error, and the caller's
abort signal. -/
inductive WsEvent where
  | message (u : InUnit)
  | close (code : Nat)
  | sockError
  | abort

/-- The closure `finalizeWithText(fullText)` from the source. -/
def finalizeWithText (s : WsState) : WsState :=
  { s with settled := some (.resolved ⟨s.fullText, extractArtifactPaths s.fullText⟩) }

/-- Apply one `handleFrame` effect to the call state.  The `done` paths also
call `socket.close(1000, "done")`.  `protocolError` is unreachable through
`decodeUnit` (the inner catch reroutes it) and leaves the state unchanged. -/
def applyAction (s : WsState) : FrameAction → WsState
  | .finalize => { finalizeWithText s with closeCodes := s.closeCodes ++ [some 1000] }
  | .chunk t => { s with fullText := s.fullText ++ t, chunks := s.chunks ++ [t] }
  | .protocolError _ => s
  | .drop => s

/-- One event step.  After settling, `cleanup()` has detached every handler,
so events are ignored. -/
def wsStep (s : WsState) (e : WsEvent) : WsState :=
  match s.settled with
  | some _ => s
  | none =>
    match e with
    | .message u => applyAction s (decodeUnit u)
    | .close code =>
      if code = 1000 then finalizeWithText s
      else if s.fullText.length > 0 then finalizeWithText s
      else { s with settled := some (.rejected ("WebSocket closed with code " ++ toString code ++ ".")) }
    | .sockError => { s with settled := some (.rejected "WebSocket connection failed.") }
    | .abort =>
      { s with settled := some (.rejected "Request aborted"),
               closeCodes := s.closeCodes ++ [some 1000] }

/-- Run the websocket call over a sequence of events. -/
def wsRun (events : List WsEvent) : WsState :=
  events.foldl wsStep initWsState

/-- Does `pat` occur as a contiguous run inside the list? -/
def hasInfixL (pat : List Char) : List Char → Bool
  | [] => pat.isEmpty
  | c :: rest => pat.isPrefixOf (c :: rest) || hasInfixL pat rest

/-- Model of `String.prototype.toLowerCase` (character-wise). -/
def jsToLower (s : String) : String :=
  ⟨s.data.map Char.toLower⟩

/-- The method `isAbortError`: the error message, lower-cased, contains "abort". -/
def isAbortError (msg : String) : Bool :=
  hasInfixL "abort".data (jsToLower msg).data

/-- Did the websocket call resolve (rather than reject or stay pending)? -/
def wsResolved (s : WsState) : Bool :=
  match s.settled with
  | some (.resolved _) => true
  | _ => false

deriving instance DecidableEq for Except

/-- Observable outcome of one `callChatApiStream` call: the settled value (or
error message), every `onChunk` text in delivery order (websocket chunks plus
the synthetic fallback chunk), and whether the HTTP fallback was attempted. -/
structure SendResult where
  outcome : Except String ChatApiResponse
  chunkCalls : List String
  fallbackUsed : Bool
deriving DecidableEq

/-- The method `callChatApiStream`: run the websocket call; on a non-abort failure run
the single-shot HTTP fallback (`callChatApi`), abstracted as an oracle giving
either the extracted content string or a thrown error message.  `none` means
the websocket promise never settled (the call is still pending). -/
def callChatApiStream (events : List WsEvent) (fallback : Except String String) :
    Option SendResult :=
  let s := wsRun events
  match s.settled with
  | none => none
  | some (.resolved resp) => some ⟨.ok resp, s.chunks, false⟩
  | some (.rejected err) =>
    if isAbortError err then some ⟨.error err, s.chunks, false⟩
    else
      match fallback with
      | .ok content =>
        some ⟨.ok ⟨content, extractArtifactPaths content⟩,
              s.chunks ++ (if content.length > 0 then [content] else []),
              true⟩
      | .error e => some ⟨.error e, s.chunks, true⟩

/-! ### Reveal scheduler (`tickStreamingTyping`) -/

def STREAM_TYPING_BASE_STEP : Nat := 2
def STREAM_TYPING_CATCHUP_WINDOW : Nat := 20

/-- One tick of `tickStreamingTyping` acting on `streamingTypingProgress`,
for a fixed target text length `len` (`streamingRenderText.length`).  With
`remaining <= 0` the tick leaves progress unchanged (finalize/stop side
effects are not part of the revealed count). -/
def tickStreamingTyping (len p : Nat) : Nat :=
  let remaining := len - p
  if remaining = 0 then p
  else
    let catchup := (remaining + (STREAM_TYPING_CATCHUP_WINDOW - 1)) / STREAM_TYPING_CATCHUP_WINDOW
    let step := max STREAM_TYPING_BASE_STEP catchup
    min len (p + step)

/-- Progress after `n` ticks against a fixed target length. -/
def revealIter (len : Nat) : Nat → Nat → Nat
  | 0, p => p
  | n + 1, p => revealIter len n (tickStreamingTyping len p)

/-! ### Snapshot tracker (`readSnapshot` / `getSnapshotState`) -/

/-- The snapshot file as seen by `readSnapshot`: missing, present but failing
`JSON.parse`, or parsed to a JSON value. -/
inductive SnapshotFile where
  | absent
  | unparsable
  | parsed (v : JVal)

/-- Model of `new Map(files.map(f => [f.path, f.mtime])).get p` — last entry wins. -/
def mapGet (files : List (String × Int)) (p : String) : Option Int :=
  (files.reverse.find? (fun e => e.1 == p)).map (·.2)

/-- Model of `Map.size`: the number of distinct paths. -/
def mapSize (files : List (String × Int)) : Nat :=
  (files.map Prod.fst).dedup.length

/-- Reading `.length` on a JS value: throws on `null`, is `undefined` on numbers and
booleans, reads the field on plain objects. -/
def jsLengthVal : JVal → Except Unit (Option JVal)
  | .jnull => .error ()
  | .jarr xs => .ok (some (JVal.jnum xs.length))
  | .jstr s => .ok (some (JVal.jnum s.length))
  | .jobj fields => .ok ((fields.find? (fun p => p.1 == "length")).map (·.2))
  | _ => .ok none

/-- Model of `for (const entry of v)`: arrays iterate elements, strings iterate
characters, anything else throws a TypeError. -/
def jsIterate : JVal → Except Unit (List JVal)
  | .jarr xs => .ok xs
  | .jstr s => .ok (s.data.map fun c => JVal.jstr ⟨[c]⟩)
  | _ => .error ()

/-- Loop body of `getSnapshotState` for one stored entry: `true` means this
entry makes the snapshot stale; `.error` models a thrown TypeError
(property access on a `null` entry). -/
def checkSnapshotEntry (files : List (String × Int)) (entry : JVal) : Except Unit Bool :=
  match entry with
  | JVal.jnull => .error ()
  | e =>
    let cur : Option Int :=
      match getField e "path" with
      | some (JVal.jstr p) => mapGet files p
      | _ => none
    match cur with
    | none => .ok true
    | some m =>
      match getField e "mtime" with
      | some (JVal.jnum x) => .ok (decide (x ≠ m))
      | _ => .ok true

/-- The `for` loop of `getSnapshotState`, returning at the first stale entry. -/
def snapLoop (files : List (String × Int)) : List JVal → Except Unit Bool
  | [] => .ok false
  | entry :: rest =>
    match checkSnapshotEntry files entry with
    | .error _ => .error ()
    | .ok true => .ok true
    | .ok false => snapLoop files rest

/-- The method `getSnapshotState` composed with `readSnapshot`: given the snapshot file
state and the current files' `(path, mtime)` list, produce
`{exists, changed}` or a thrown TypeError (`.error`). -/
def getSnapshotState (snap : SnapshotFile) (files : List (String × Int)) :
    Except Unit (Bool × Bool) :=
  match snap with
  | .absent => .ok (false, false)
  | .unparsable => .ok (false, false)
  | .parsed v =>
    if jsFalsy v then .ok (false, false)
    else
      match getField v "files" with
      | none => .error ()
      | some filesVal =>
        match jsLengthVal filesVal with
        | .error _ => .error ()
        | .ok lenV =>
          let sizeMatches :=
            match lenV with
            | some (JVal.jnum x) => x == (mapSize files : Int)
            | _ => false
          if !sizeMatches then .ok (true, true)
          else
            match jsIterate filesVal with
            | .error _ => .error ()
            | .ok entries =>
              match snapLoop files entries with
              | .error _ => .error ()
              | .ok b => .ok (true, b)

/-- The JSON value `writeSnapshot` stores for a `(path, mtime)` list. -/
def encodeSnapshotEntry (e : String × Int) : JVal :=
  JVal.jobj [("path", JVal.jstr e.1), ("mtime", JVal.jnum e.2)]

def encodeSnapshot (S : List (String × Int)) : JVal :=
  JVal.jobj [("files", JVal.jarr (S.map encodeSnapshotEntry))]

/-! ### Chat log store (`parseChatLog` / `appendChatLog`) -/

inductive Role where
  | user
  | assistant
  | system
deriving DecidableEq

def roleText : Role → String
  | .user => "user"
  | .assistant => "assistant"
  | .system => "system"

/-- One parsed `ChatLogEntry`. -/
structure ParsedEntry where
  role : Role
  content : String
  timestamp : Option String
deriving DecidableEq

/-- The header regex `^## \[(.+)\] (user|assistant)$` at the character level:
the role is the anchored suffix, and the greedy group captures everything
between the opening `## [` and the final `] <role>`. -/
def headerMatchL (cs : List Char) : Option (List Char × Role) :=
  if ("## [".data.isPrefixOf cs) then
    let mid := cs.drop 4
    if ("] user".data.isSuffixOf mid) && decide (7 ≤ mid.length) then
      some (mid.take (mid.length - 6), .user)
    else if ("] assistant".data.isSuffixOf mid) && decide (12 ≤ mid.length) then
      some (mid.take (mid.length - 11), .assistant)
    else none
  else none

def headerMatch (line : String) : Option (String × Role) :=
  (headerMatchL line.data).map fun p => ((⟨p.1⟩ : String), p.2)

/-- Model of `line.startsWith("# Chat history")`. -/
def isTitleLine (line : String) : Bool :=
  "# Chat history".data.isPrefixOf line.data

/-- State of the markdown log parser loop. -/
structure MdState where
  role : Option Role
  ts : Option String
  buffer : List String
  acc : List ParsedEntry

/-- The `flush` closure: emit the buffered turn when a role is active and the
trimmed joined buffer is non-empty. -/
def flushMd (st : MdState) : List ParsedEntry :=
  match st.role with
  | none => st.acc
  | some r =>
    if st.buffer.length > 0 then
      let text := jsTrim (joinLines st.buffer)
      if text.length > 0 then st.acc ++ [⟨r, text, st.ts⟩] else st.acc
    else st.acc

/-- One line of the markdown parser loop. -/
def mdStep (st : MdState) (line : String) : MdState :=
  match headerMatch line with
  | some (ts, r) => { role := some r, ts := some ts, buffer := [], acc := flushMd st }
  | none =>
    if isTitleLine line then st
    else { st with buffer := st.buffer ++ [line] }

/-- The markdown branch of `parseChatLog`. -/
def parseMarkdown (content : String) : List ParsedEntry :=
  flushMd ((splitLines content).foldl mdStep ⟨none, none, [], []⟩)

/-- Does the trimmed content start with `{` or `[` (legacy JSON check)? -/
def legacyStart (content : String) : Bool :=
  match content.data.dropWhile isJsWs with
  | '\x7b' :: _ => true
  | '[' :: _ => true
  | _ => false

/-- Model of `a ?? b ?? ...` over fields: the first field that is present and not
`null`. -/
def firstPresent (v : JVal) : List String → Option JVal
  | [] => none
  | k :: rest =>
    match getField v k with
    | some JVal.jnull => firstPresent v rest
    | some x => some x
    | none => firstPresent v rest

/-- The method `extractTimestamp`: pick the first timestamp-ish field and normalize it.
`normTs` abstracts `normalizeTimestamp` (it calls `new Date`, which is
environment code). -/
def extractTimestampJ (normTs : JVal → Option String) (item : JVal) : Option String :=
  match firstPresent item ["timestamp", "time", "created_at", "createdAt", "date", "ts"] with
  | some v => normTs v
  | none => none

/-- The legacy-JSON branch of `parseChatLog`, applied to a successfully
parsed value. -/
def legacyEntries (normTs : JVal → Option String) (v : JVal) : List ParsedEntry :=
  let rawItems : JVal :=
    match v with
    | JVal.jarr _ => v
    | _ => (firstPresent v ["messages", "history", "items", "log"]).getD (JVal.jarr [])
  let items : List JVal :=
    match rawItems with
    | JVal.jarr xs => xs
    | _ => []
  items.filterMap fun item =>
    match item with
    | JVal.jnull => none
    | JVal.jbool _ => none
    | JVal.jnum _ => none
    | JVal.jstr _ => none
    | obj =>
      let mk : Role → Option ParsedEntry := fun r =>
        match (firstPresent obj ["content", "text", "message"]).getD (JVal.jstr "") with
        | JVal.jstr c => some ⟨r, c, extractTimestampJ normTs obj⟩
        | _ => none
      match firstPresent obj ["role", "type", "author", "sender"] with
      | some (JVal.jstr "user") => mk .user
      | some (JVal.jstr "assistant") => mk .assistant
      | some (JVal.jstr "system") => mk .system
      | _ => none

/-- The method `parseChatLog`.  `jsonParse` abstracts `JSON.parse` (returning `none` for
a thrown SyntaxError), `normTs` abstracts `normalizeTimestamp`. -/
def parseChatLog (jsonParse : String → Option JVal) (normTs : JVal → Option String)
    (content : String) : List ParsedEntry :=
  if legacyStart content then
    match jsonParse (jsTrim content) with
    | some v => legacyEntries normTs v
    | none => parseMarkdown content
  else parseMarkdown content

/-- The block `appendChatLog` appends for one turn:
`## [<timestamp>] <role>\n<content>\n\n`. -/
def appendChatLogEntry (timestamp : String) (role : Role) (content : String) : String :=
  "## [" ++ timestamp ++ "] " ++ roleText role ++ "\n" ++ content ++ "\n\n"

/-- The document produced by creating the log (title header) and appending the
given `(timestamp, role, content)` turns in order. -/
def writeChatLogDoc (es : List (String × Role × String)) : String :=
  "# Chat history\n\n" ++ concatStrs (es.map fun e => appendChatLogEntry e.1 e.2.1 e.2.2)

/-! ### Definitions supporting the claim statements -/

/-- Raw wire text of a structured error frame. -/
def errRaw : String := "\x7b\"type\":\"error\",\"message\":\"boom\"\x7d"

/-- Its parsed JSON value. -/
def errFrame : JVal := JVal.jobj [("type", JVal.jstr "error"), ("message", JVal.jstr "boom")]

/-- The artifact block grammar as amended: after a marker line, further marker
lines and blank lines are skipped, bullet lines are collected, and the first
non-blank non-bullet non-marker line ends the block. -/
def collectSpec : List String → List String
  | [] => []
  | t :: rest =>
    if strStartsWith t "Артефакты:" then collectSpec rest
    else
      match matchBullet t with
      | some p => p :: collectSpec rest
      | none => if t.length = 0 then collectSpec rest else []

/-- Skip trimmed lines until the first marker line, then collect the block. -/
def afterMarker : List String → List String
  | [] => []
  | t :: rest =>
    if strStartsWith t "Артефакты:" then collectSpec rest else afterMarker rest

/-- Artifact extraction as described by the amended claim, applied to the
trimmed lines of the text. -/
def artifactPathsSpec (text : String) : List String :=
  afterMarker ((splitLines text).map jsTrim)

/-- The recognized structured shapes listed by the claim: an error frame, a
chunk frame, a done frame (`type == "done"` or `done == true`), or an object
carrying a textual field among `message`/`response`/`content`/`text`. -/
def recognizedShape (v : JVal) : Bool :=
  typeIs v "error" || typeIs v "chunk" || typeIs v "done" || doneTrue v ||
  (textCandidate v).isSome

/-- Staleness as worded by the spec: the path set of the stored snapshot
differs from the path set of the current files, or some stored path's
modify-time differs from its current modify-time. -/
def snapshotChangedSpec (S C : List (String × Int)) : Bool :=
  decide ((S.map Prod.fst).toFinset ≠ (C.map Prod.fst).toFinset) ||
  S.any fun e => decide (mapGet C e.1 ≠ some e.2)

/-- Invariant of the websocket call state: the `onChunk` texts concatenate to
`fullText`, and a resolved result carries `fullText` as its message. -/
def wsInv (s : WsState) : Prop :=
  concatStrs s.chunks = s.fullText ∧
  ∀ resp, s.settled = some (WsResult.resolved resp) → resp.message = s.fullText

/-- Model of `array.join("\n")` at the character level. -/
def joinL : List (List Char) → List Char
  | [] => []
  | [l] => l
  | l :: rest => l ++ '\n' :: joinL rest

/-- The header line `appendChatLog` writes before a turn's text. -/
def headerLine (ts : String) (r : Role) : String :=
  "## [" ++ ts ++ "] " ++ roleText r

/-- Lines of one serialized turn: header, the content's lines, a blank. -/
def blockLines (e : String × Role × String) : List String :=
  headerLine e.1 e.2.1 :: splitLines e.2.2 ++ [""]

/-- Conditions under which a `(timestamp, role, content)` turn survives the
log round-trip unchanged: a persisted role, a non-empty timestamp free of
line breaks, and a content that is trim-invariant, non-empty, free of
carriage returns, and none of whose lines is itself a turn header or starts
with the title marker. -/
abbrev goodEntry (e : String × Role × String) : Prop :=
  (e.2.1 = Role.user ∨ e.2.1 = Role.assistant) ∧
  e.1.data ≠ [] ∧ '\n' ∉ e.1.data ∧ '\r' ∉ e.1.data ∧
  '\r' ∉ e.2.2.data ∧ jsTrim e.2.2 = e.2.2 ∧ e.2.2 ≠ "" ∧
  ∀ l ∈ splitLines e.2.2, headerMatch l = none ∧ isTitleLine l = false

/-! ### General helper lemmas -/

theorem length_pos_of_ne_empty (s : String) (h : s ≠ "") : 0 < s.length := by
  cases s with
  | mk data =>
    cases data with
    | nil => exact absurd rfl h
    | cons c cs => simp [String.length]

theorem eq_empty_of_length_eq_zero (s : String) (h : s.length = 0) : s = "" := by
  cases s with
  | mk data =>
    cases data with
    | nil => rfl
    | cons c cs => simp [String.length] at h

theorem concatStrs_append (l₁ l₂ : List String) :
    concatStrs (l₁ ++ l₂) = concatStrs l₁ ++ concatStrs l₂ := by
  induction l₁ with
  | nil => simp [concatStrs]
  | cons s rest ih => simp [concatStrs, ih, String.append_assoc]

theorem concatStrs_singleton (t : String) : concatStrs [t] = t := by
  show t ++ concatStrs [] = t
  simp [concatStrs]

/-! ### Websocket run invariants -/


theorem wsStep_inv (s : WsState) (e : WsEvent) (h : wsInv s) : wsInv (wsStep s e) := by
  obtain ⟨h1, h2⟩ := h
  unfold wsStep
  cases hs : s.settled with
  | some r => exact ⟨h1, h2⟩
  | none =>
    cases e with
    | message u =>
      show wsInv (applyAction s _)
      cases decodeUnit u with
      | finalize =>
        refine ⟨h1, fun resp hr => ?_⟩
        simp only [applyAction, finalizeWithText] at hr ⊢
        cases hr
        rfl
      | chunk t =>
        refine ⟨?_, fun resp hr => ?_⟩
        · simp [applyAction, concatStrs_append, concatStrs_singleton, h1]
        · simp only [applyAction] at hr
          rw [hs] at hr
          cases hr
      | protocolError d => exact ⟨h1, h2⟩
      | drop => exact ⟨h1, h2⟩
    | close code =>
      by_cases hc : code = 1000
      · simp only [hc, if_pos rfl]
        refine ⟨h1, fun resp hr => ?_⟩
        simp only [finalizeWithText] at hr
        cases hr
        rfl
      · simp only [if_neg hc]
        by_cases hl : s.fullText.length > 0
        · simp only [if_pos hl]
          refine ⟨h1, fun resp hr => ?_⟩
          simp only [finalizeWithText] at hr
          cases hr
          rfl
        · simp only [if_neg hl]
          exact ⟨h1, fun resp hr => by cases hr⟩
    | sockError => exact ⟨h1, fun resp hr => by cases hr⟩
    | abort => exact ⟨h1, fun resp hr => by cases hr⟩

theorem foldl_wsStep_inv (events : List WsEvent) (s : WsState) (h : wsInv s) :
    wsInv (events.foldl wsStep s) := by
  induction events generalizing s with
  | nil => exact h
  | cons e rest ih => exact ih _ (wsStep_inv s e h)

theorem wsRun_inv (events : List WsEvent) : wsInv (wsRun events) :=
  foldl_wsStep_inv events initWsState ⟨rfl, fun resp hr => by cases hr⟩

theorem wsRun_append (pre post : List WsEvent) :
    wsRun (pre ++ post) = post.foldl wsStep (wsRun pre) := by
  simp [wsRun, List.foldl_append]

theorem foldl_wsStep_settled (post : List WsEvent) (s : WsState)
    (h : s.settled.isSome) : post.foldl wsStep s = s := by
  induction post with
  | nil => rfl
  | cons e rest ih =>
    have hstep : wsStep s e = s := by
      unfold wsStep
      cases hs : s.settled with
      | some r => rfl
      | none => rw [hs] at h; cases h
    rw [List.foldl_cons, hstep, ih]

/-! ### Claim C1 -/



/-- C1: the code contradicts the claim.  `handleFrame` does classify the frame
as a protocol error with the server detail "boom" (first conjunct), but the
`throw` is swallowed by the inner `try { handleFrame(JSON.parse(raw)) } catch
{ handleFrame(raw) }`, which re-processes the raw JSON text as a literal text
chunk (second conjunct).  Consequently a send call that receives the error
frame and then a normal close does not fail with a ProtocolError at all: it
resolves successfully with the frame's raw JSON text as the message, delivered
through `onChunk` (third conjunct).  The claimed behavior — the call fails and
the detail is surfaced — never happens. -/
theorem claim_c1_error_frame_swallowed :
    handleFrame errFrame = FrameAction.protocolError "boom" ∧
    decodeUnit (InUnit.parses errRaw errFrame) = FrameAction.chunk errRaw ∧
    callChatApiStream [WsEvent.message (InUnit.parses errRaw errFrame), WsEvent.close 1000]
        (Except.error "fallback not reached")
      = some ⟨Except.ok ⟨errRaw, []⟩, [errRaw], false⟩ :=
  ⟨rfl, rfl, rfl⟩

/-! ### Claim C10 -/

/-- C10: a close event while the call is still pending resolves it with the
accumulated text whenever the close code is 1000 (even with no text) or some
text has been accumulated, and the HTTP fallback is not attempted. -/
theorem claim_c10_close (pre : List WsEvent) (code : Nat) (fb : Except String String)
    (h1 : (wsRun pre).settled = none)
    (h2 : code = 1000 ∨ (wsRun pre).fullText ≠ "") :
    callChatApiStream (pre ++ [WsEvent.close code]) fb
      = some ⟨Except.ok ⟨(wsRun pre).fullText, extractArtifactPaths (wsRun pre).fullText⟩,
              (wsRun pre).chunks, false⟩ := by
  have hrun : wsRun (pre ++ [WsEvent.close code]) = wsStep (wsRun pre) (WsEvent.close code) := by
    rw [wsRun_append]; rfl
  have hstep : wsStep (wsRun pre) (WsEvent.close code) = finalizeWithText (wsRun pre) := by
    unfold wsStep
    rw [h1]
    rcases h2 with hc | ht
    · simp [hc]
    · have : (wsRun pre).fullText.length > 0 := length_pos_of_ne_empty _ ht
      by_cases hc : code = 1000
      · simp [hc]
      · simp [hc, this]
  unfold callChatApiStream
  rw [hrun, hstep]
  rfl

/-- C10 witness: a close with abnormal code 1006 after the chunk "Hi" resolves
with message "Hi" and no fallback. -/
theorem claim_c10_close_witness :
    (wsRun [WsEvent.message (InUnit.noParse "Hi")]).settled = none ∧
    callChatApiStream [WsEvent.message (InUnit.noParse "Hi"), WsEvent.close 1006]
        (Except.ok "FB")
      = some ⟨Except.ok ⟨"Hi", []⟩, ["Hi"], false⟩ :=
  ⟨rfl,
   claim_c10_close [WsEvent.message (InUnit.noParse "Hi")] 1006 (Except.ok "FB") rfl
     (Or.inr (by decide))⟩

/-! ### Claim C8 -/

/-- C8: a triggered abort signal while the call is pending closes the socket
with the normal-closure code 1000, rejects the call with the abort error, and
never attempts the HTTP fallback (late events after the abort are ignored). -/
theorem claim_c8_cancel (pre post : List WsEvent) (fb : Except String String)
    (h : (wsRun pre).settled = none) :
    callChatApiStream (pre ++ WsEvent.abort :: post) fb
      = some ⟨Except.error "Request aborted", (wsRun pre).chunks, false⟩ ∧
    (wsRun (pre ++ WsEvent.abort :: post)).closeCodes
      = (wsRun pre).closeCodes ++ [some 1000] ∧
    isAbortError "Request aborted" = true := by
  have habortmsg : isAbortError "Request aborted" = true := by decide
  have hstep : wsStep (wsRun pre) WsEvent.abort
      = { wsRun pre with settled := some (WsResult.rejected "Request aborted"),
                         closeCodes := (wsRun pre).closeCodes ++ [some 1000] } := by
    unfold wsStep
    rw [h]
  have hrun : wsRun (pre ++ WsEvent.abort :: post)
      = { wsRun pre with settled := some (WsResult.rejected "Request aborted"),
                         closeCodes := (wsRun pre).closeCodes ++ [some 1000] } := by
    have : wsRun (pre ++ WsEvent.abort :: post)
        = post.foldl wsStep (wsStep (wsRun pre) WsEvent.abort) := by
      rw [show pre ++ WsEvent.abort :: post = (pre ++ [WsEvent.abort]) ++ post by simp,
          wsRun_append, wsRun_append]
      rfl
    rw [this, hstep, foldl_wsStep_settled]
    rfl
  refine ⟨?_, ?_, habortmsg⟩
  · unfold callChatApiStream
    rw [hrun]
    simp [habortmsg]
  · rw [hrun]

/-- C8 witness: an abort as the very first event (signal already triggered)
rejects with the abort error, records the 1000 close, and skips the fallback. -/
theorem claim_c8_cancel_witness :
    (wsRun []).settled = none ∧
    callChatApiStream [WsEvent.abort] (Except.ok "Hello")
      = some ⟨Except.error "Request aborted", [], false⟩ :=
  ⟨rfl, (claim_c8_cancel [] [] (Except.ok "Hello") rfl).1⟩

/-! ### Claim C2 -/

/-- C2 counterexample: the websocket delivers the chunk "Hel", then the socket
errors; the call falls back to the HTTP transport, which returns "Hello".  The
result is produced by the fallback and resolves with message "Hello", but the
`onChunk` texts were "Hel" then "Hello", whose concatenation "HelHello" is not
the resolved message — refuting the claim's extension to fallback-produced
results. -/
theorem claim_c2_counterexample :
    callChatApiStream [WsEvent.message (InUnit.noParse "Hel"), WsEvent.sockError]
        (Except.ok "Hello")
      = some ⟨Except.ok ⟨"Hello", []⟩, ["Hel", "Hello"], true⟩ ∧
    concatStrs ["Hel", "Hello"] ≠ "Hello" :=
  ⟨rfl, by decide⟩

/-- C2 (amended): for every completed send call that resolves with a result,
the concatenation of all `onChunk` texts equals the resolved message, provided
the result came from the websocket itself or, when it came from the fallback,
the websocket had accumulated no text before failing. -/
theorem claim_c2_chunk_concat (events : List WsEvent) (fb : Except String String)
    (r : SendResult) (resp : ChatApiResponse)
    (h : callChatApiStream events fb = some r)
    (hr : r.outcome = Except.ok resp)
    (hws : wsResolved (wsRun events) = true ∨ (wsRun events).fullText = "") :
    concatStrs r.chunkCalls = resp.message := by
  obtain ⟨hinv1, hinv2⟩ := wsRun_inv events
  cases hs : (wsRun events).settled with
  | none =>
    simp only [callChatApiStream, hs] at h
    exact Option.noConfusion h
  | some w =>
    cases w with
    | resolved resp' =>
      simp only [callChatApiStream, hs] at h
      have hr' : r = ⟨Except.ok resp', (wsRun events).chunks, false⟩ := (Option.some.inj h).symm
      subst hr'
      have h3 : Except.ok (ε := String) resp' = Except.ok resp := hr
      injection h3 with h4
      subst h4
      show concatStrs (wsRun events).chunks = resp'.message
      rw [hinv1]
      exact (hinv2 resp' hs).symm
    | rejected err =>
      by_cases hab : isAbortError err = true
      · simp only [callChatApiStream, hs, hab, if_true] at h
        have hr' : r = ⟨Except.error err, (wsRun events).chunks, false⟩ := (Option.some.inj h).symm
        subst hr'
        exact Except.noConfusion hr
      · have hab' : isAbortError err = false := by simpa using hab
        have hft : (wsRun events).fullText = "" := by
          rcases hws with hres | hft
          · rw [wsResolved, hs] at hres; cases hres
          · exact hft
        cases fb with
        | ok content =>
          simp only [callChatApiStream, hs, hab', Bool.false_eq_true, if_false] at h
          have hr' : r = ⟨Except.ok ⟨content, extractArtifactPaths content⟩,
              (wsRun events).chunks ++ (if content.length > 0 then [content] else []),
              true⟩ := (Option.some.inj h).symm
          subst hr'
          have h3 : Except.ok (ε := String) ⟨content, extractArtifactPaths content⟩
              = Except.ok resp := hr
          injection h3 with h4
          subst h4
          show concatStrs ((wsRun events).chunks ++ _) = content
          rw [concatStrs_append, hinv1, hft]
          by_cases hcl : content.length > 0
          · simp only [hcl, if_true, concatStrs_singleton]
            rfl
          · have hce : content = "" :=
              eq_empty_of_length_eq_zero _ (Nat.eq_zero_of_not_pos hcl)
            simp [hcl, concatStrs, hce]
        | error e =>
          simp only [callChatApiStream, hs, hab', Bool.false_eq_true, if_false] at h
          have hr' : r = ⟨Except.error e, (wsRun events).chunks, true⟩ := (Option.some.inj h).symm
          subst hr'
          exact Except.noConfusion hr

/-- C2 witness: the turn "Hel" then "lo" terminated by a done frame resolves
with message "Hello", and the delivered chunk texts concatenate to it. -/
theorem claim_c2_chunk_concat_witness :
    callChatApiStream
        [WsEvent.message (InUnit.parses "c1" (JVal.jobj [("type", JVal.jstr "chunk"), ("text", JVal.jstr "Hel")])),
         WsEvent.message (InUnit.parses "c2" (JVal.jobj [("type", JVal.jstr "chunk"), ("text", JVal.jstr "lo")])),
         WsEvent.message (InUnit.parses "d" (JVal.jobj [("type", JVal.jstr "done")]))]
        (Except.error "unused")
      = some ⟨Except.ok ⟨"Hello", []⟩, ["Hel", "lo"], false⟩ ∧
    concatStrs ["Hel", "lo"] = "Hello" :=
  ⟨rfl,
   claim_c2_chunk_concat
     [WsEvent.message (InUnit.parses "c1" (JVal.jobj [("type", JVal.jstr "chunk"), ("text", JVal.jstr "Hel")])),
      WsEvent.message (InUnit.parses "c2" (JVal.jobj [("type", JVal.jstr "chunk"), ("text", JVal.jstr "lo")])),
      WsEvent.message (InUnit.parses "d" (JVal.jobj [("type", JVal.jstr "done")]))]
     (Except.error "unused")
     ⟨Except.ok ⟨"Hello", []⟩, ["Hel", "lo"], false⟩
     ⟨"Hello", []⟩
     rfl rfl (Or.inl rfl)⟩

/-! ### Claim C3 -/

theorem tick_ge (len p : Nat) : p ≤ tickStreamingTyping len p := by
  unfold tickStreamingTyping
  by_cases h : len - p = 0
  · simp [h]
  · have hlt : p < len := Nat.lt_of_sub_ne_zero h
    simp only [h, if_false]
    exact le_min (Nat.le_of_lt hlt) (Nat.le_add_right _ _)

theorem tick_le (len p : Nat) (h : p ≤ len) : tickStreamingTyping len p ≤ len := by
  unfold tickStreamingTyping
  by_cases h0 : len - p = 0
  · simp [h0, h]
  · simp only [h0, if_false]
    exact min_le_left _ _

theorem revealIter_ge (len n : Nat) : ∀ p, p ≤ revealIter len n p := by
  induction n with
  | zero => intro p; exact le_refl p
  | succ n ih =>
    intro p
    exact le_trans (tick_ge len p) (ih (tickStreamingTyping len p))

theorem revealIter_le (len n : Nat) : ∀ p, p ≤ len → revealIter len n p ≤ len := by
  induction n with
  | zero => intro p hp; exact hp
  | succ n ih => intro p hp; exact ih _ (tick_le len p hp)

theorem revealIter_complete (len : Nat) :
    ∀ n p, p ≤ len → len - p ≤ 2 * n → revealIter len n p = len := by
  intro n
  induction n with
  | zero =>
    intro p hp hb
    have : len ≤ p := Nat.le_of_sub_eq_zero (Nat.le_zero.mp (by simpa using hb))
    exact (Nat.le_antisymm hp this) ▸ rfl
  | succ n ih =>
    intro p hp hb
    show revealIter len n (tickStreamingTyping len p) = len
    by_cases hpl : len - p = 0
    · have hpe : p = len := Nat.le_antisymm hp (Nat.le_of_sub_eq_zero hpl)
      have ht : tickStreamingTyping len p = p := by unfold tickStreamingTyping; simp [hpl]
      rw [ht]
      exact ih p hp (by omega)
    · have hlt : p < len := Nat.lt_of_sub_ne_zero hpl
      have hstep : 2 ≤ max STREAM_TYPING_BASE_STEP
          ((len - p + (STREAM_TYPING_CATCHUP_WINDOW - 1)) / STREAM_TYPING_CATCHUP_WINDOW) :=
        le_max_left _ _
      have ht : tickStreamingTyping len p
          = min len (p + max STREAM_TYPING_BASE_STEP
              ((len - p + (STREAM_TYPING_CATCHUP_WINDOW - 1)) / STREAM_TYPING_CATCHUP_WINDOW)) := by
        unfold tickStreamingTyping
        simp [hpl]
      rw [ht]
      set st := max STREAM_TYPING_BASE_STEP
        ((len - p + (STREAM_TYPING_CATCHUP_WINDOW - 1)) / STREAM_TYPING_CATCHUP_WINDOW) with hst
      apply ih
      · exact min_le_left _ _
      · have : min len (p + st) = len ∨ min len (p + st) = p + st := by
          rcases le_total len (p + st) with hle | hle
          · exact Or.inl (min_eq_left hle)
          · exact Or.inr (min_eq_right hle)
        rcases this with hmin | hmin <;> rw [hmin] <;> omega

/-- C3 counterexample: with a 100-character backlog and no further growth, 20
ticks reveal only 69 characters, refuting "reaches the target text's length
within catchupWindow (20) ticks after the target stops growing" (the step is
recomputed from the shrinking remainder each tick, so the decay is geometric,
not linear). -/
theorem claim_c3_counterexample : revealIter 100 20 0 ≠ 100 := by decide

/-- C3 (amended): for a target of length `len` and any start `p ≤ len`, the
revealed count is non-decreasing, never exceeds `len`, reaches `len` within
`⌈remaining / baseStep⌉` ticks after the target stops growing (i.e. whenever
`len - p ≤ 2 * n`, since every tick advances by at least `baseStep = 2`), and
each tick advances by `step = max(baseStep, ceil(remaining / catchupWindow))`
capped at `len`. -/
theorem claim_c3_reveal (len p n : Nat) (hp : p ≤ len) :
    p ≤ revealIter len n p ∧
    revealIter len n p ≤ len ∧
    (len - p ≤ 2 * n → revealIter len n p = len) ∧
    (p < len → tickStreamingTyping len p
      = min len (p + max STREAM_TYPING_BASE_STEP
          ((len - p + (STREAM_TYPING_CATCHUP_WINDOW - 1)) / STREAM_TYPING_CATCHUP_WINDOW))) := by
  refine ⟨revealIter_ge len n p, revealIter_le len n p hp,
          fun hb => revealIter_complete len n p hp hb, fun hlt => ?_⟩
  unfold tickStreamingTyping
  simp [Nat.sub_ne_zero_of_lt hlt]

/-- C3 witness: length 5, start 1, two ticks: the backlog of 4 is cleared
within 2 ticks and the bounds hold. -/
theorem claim_c3_reveal_witness :
    (1 : Nat) ≤ 5 ∧
    (1 ≤ revealIter 5 2 1 ∧ revealIter 5 2 1 ≤ 5 ∧
     (5 - 1 ≤ 2 * 2 → revealIter 5 2 1 = 5) ∧
     (1 < 5 → tickStreamingTyping 5 1
       = min 5 (1 + max STREAM_TYPING_BASE_STEP
           ((5 - 1 + (STREAM_TYPING_CATCHUP_WINDOW - 1)) / STREAM_TYPING_CATCHUP_WINDOW)))) :=
  ⟨by decide, claim_c3_reveal 5 1 2 (by decide)⟩

/-! ### Claim C5 -/

/-- C5 counterexample: a blank line directly after the marker does not end the
artifact block — the bullet on the following line is still collected, whereas
the claim ("stopping at the first blank line ... after the marker") predicts
an empty result. -/
theorem claim_c5_counterexample :
    extractArtifactPaths "Артефакты:\n\n- /artifacts/a.pdf" = ["/artifacts/a.pdf"] ∧
    (["/artifacts/a.pdf"] : List String) ≠ [] := by
  refine ⟨by decide, by decide⟩




theorem extractGo_true (lines : List String) :
    ∀ acc, extractGo lines true acc = acc.reverse ++ collectSpec (lines.map jsTrim) := by
  induction lines with
  | nil => intro acc; simp [extractGo, collectSpec]
  | cons line rest ih =>
    intro acc
    show extractGo (line :: rest) true acc = _
    unfold extractGo
    simp only [List.map_cons, collectSpec]
    by_cases hm : strStartsWith (jsTrim line) "Артефакты:"
    · simp only [hm, if_true, ih]
    · simp only [hm, if_false, Bool.not_true, Bool.false_eq_true]
      cases hb : matchBullet (jsTrim line) with
      | some p =>
        simp only [ih, List.reverse_cons]
        simp
      | none =>
        by_cases hl : (jsTrim line).length > 0
        · have : ¬ (jsTrim line).length = 0 := by omega
          simp [hl, this]
        · have : (jsTrim line).length = 0 := by omega
          simp [hl, this, ih]

theorem extractGo_false (lines : List String) :
    ∀ acc, extractGo lines false acc = acc.reverse ++ afterMarker (lines.map jsTrim) := by
  induction lines with
  | nil => intro acc; simp [extractGo, afterMarker]
  | cons line rest ih =>
    intro acc
    unfold extractGo
    simp only [List.map_cons, afterMarker]
    by_cases hm : strStartsWith (jsTrim line) "Артефакты:"
    · simp only [hm, if_true]
      exact extractGo_true rest acc
    · simp [hm, ih]

/-- C5 (amended): `extractArtifactPaths` collects exactly the `- /artifacts/…`
bullet lines that follow the first line whose trimmed form starts with the
marker, skipping blank lines and repeated marker lines, and stopping at the
first non-blank line that is neither a bullet nor a marker; no marker line
yields the empty list, and a malformed bullet line ends the block without an
error. -/
theorem claim_c5_artifacts (text : String) :
    extractArtifactPaths text = artifactPathsSpec text :=
  extractGo_false (splitLines text) []

/-! ### Claim C9 -/


/-- C9 counterexample: the unit `"{}"` parses as JSON to an object matching no
recognized shape; the claim says it degrades to RawText (is delivered), but
the code drops it: `handleFrame` falls through every branch and returns
without touching `fullText` or calling `onChunk`. -/
theorem claim_c9_counterexample :
    decodeUnit (InUnit.parses "\x7b\x7d" (JVal.jobj [])) = FrameAction.drop := rfl

/-- C9 (amended): a unit that fails JSON parsing is delivered in its entirety
as literal chunk text (unless its trimmed form is a done sentinel), but a unit
that parses as JSON to an object matching none of the recognized shapes is
silently dropped rather than degraded to RawText. -/
theorem claim_c9_decode (raw : String) (v : JVal) :
    (sentinelDone raw = false → decodeUnit (InUnit.noParse raw) = FrameAction.chunk raw) ∧
    (∀ fields, v = JVal.jobj fields → recognizedShape v = false →
      decodeUnit (InUnit.parses raw v) = FrameAction.drop) := by
  constructor
  · intro hs
    show handleFrame (JVal.jstr raw) = FrameAction.chunk raw
    simp [handleFrame, hs]
  · intro fields hv hrec
    subst hv
    simp only [recognizedShape, Bool.or_eq_false_iff] at hrec
    obtain ⟨⟨⟨⟨herr, hchunk⟩, hdone⟩, hdtrue⟩, htext⟩ := hrec
    have hhf : handleFrame (JVal.jobj fields) = FrameAction.drop := by
      show (if typeIs (JVal.jobj fields) "error" then _
            else if typeIs (JVal.jobj fields) "chunk" then _
            else if typeIs (JVal.jobj fields) "done" || doneTrue (JVal.jobj fields) then _
            else _) = FrameAction.drop
      rw [herr, hchunk, hdone, hdtrue]
      simp only [Bool.false_eq_true, if_false, Bool.or_self]
      cases ht : textCandidate (JVal.jobj fields) with
      | some t => rw [ht] at htext; exact absurd htext (by simp)
      | none => rfl
    show (match handleFrame (JVal.jobj fields) with
          | FrameAction.protocolError _ => handleFrame (JVal.jstr raw)
          | a => a) = FrameAction.drop
    rw [hhf]

/-- C9 witness: the unparsable unit "hello" is delivered as the chunk "hello",
and the parsed-but-unrecognized unit `{}` is dropped. -/
theorem claim_c9_decode_witness :
    sentinelDone "hello" = false ∧
    decodeUnit (InUnit.noParse "hello") = FrameAction.chunk "hello" ∧
    recognizedShape (JVal.jobj []) = false ∧
    decodeUnit (InUnit.parses "raw" (JVal.jobj [])) = FrameAction.drop :=
  ⟨by decide,
   (claim_c9_decode "hello" (JVal.jobj [])).1 (by decide),
   rfl,
   (claim_c9_decode "raw" (JVal.jobj [])).2 [] rfl rfl⟩

/-! ### Claim C4 -/


theorem mapGet_eq_none_iff (C : List (String × Int)) (p : String) :
    mapGet C p = none ↔ p ∉ C.map Prod.fst := by
  unfold mapGet
  rw [Option.map_eq_none', List.find?_eq_none]
  constructor
  · intro h hp
    obtain ⟨e, he, hpe⟩ := List.mem_map.mp hp
    exact h e (List.mem_reverse.mpr he) (by simp [hpe])
  · intro h e he hbe
    have he1 : e.1 = p := by simpa using hbe
    exact h (List.mem_map.mpr ⟨e, List.mem_reverse.mp he, he1⟩)

theorem mapGet_some_mem (C : List (String × Int)) (p : String) (m : Int)
    (h : mapGet C p = some m) : p ∈ C.map Prod.fst := by
  by_contra hnot
  rw [← mapGet_eq_none_iff C p] at hnot
  rw [hnot] at h
  cases h

theorem snapLoop_encode (C : List (String × Int)) :
    ∀ S : List (String × Int),
      snapLoop C (S.map encodeSnapshotEntry)
        = Except.ok (S.any fun e => decide (mapGet C e.1 ≠ some e.2)) := by
  intro S
  induction S with
  | nil => rfl
  | cons e S' ih =>
    have hc : checkSnapshotEntry C (encodeSnapshotEntry e)
        = Except.ok (decide (mapGet C e.1 ≠ some e.2)) := by
      have h1 : checkSnapshotEntry C (encodeSnapshotEntry e)
          = (match mapGet C e.1 with
             | none => Except.ok true
             | some m => Except.ok (decide (e.2 ≠ m))) := rfl
      rw [h1]
      cases hm : mapGet C e.1 with
      | none =>
        show Except.ok true = _
        have : (none ≠ some e.2) := by simp
        rw [decide_eq_true this]
      | some m =>
        show Except.ok (decide (e.2 ≠ m)) = Except.ok (decide (some m ≠ some e.2))
        exact congrArg Except.ok (decide_eq_decide.mpr
          ⟨fun h hc2 => h (Option.some.inj hc2).symm,
           fun h hc2 => h (congrArg some hc2.symm)⟩)
    show (match checkSnapshotEntry C (encodeSnapshotEntry e) with
          | .error _ => (.error () : Except Unit Bool)
          | .ok true => .ok true
          | .ok false => snapLoop C (S'.map encodeSnapshotEntry)) = _
    rw [hc]
    cases hd : decide (mapGet C e.1 ≠ some e.2) with
    | true => rw [List.any_cons, hd, Bool.true_or]
    | false => rw [List.any_cons, hd, Bool.false_or, ih]

/-- Evaluation of `getSnapshotState` on a well-formed stored snapshot. -/
theorem getSnapshotState_encode (S C : List (String × Int)) :
    getSnapshotState (SnapshotFile.parsed (encodeSnapshot S)) C
      = Except.ok (true,
          if S.length = mapSize C
          then S.any fun e => decide (mapGet C e.1 ≠ some e.2)
          else true) := by
  have h1 : getSnapshotState (SnapshotFile.parsed (encodeSnapshot S)) C
      = (if !((((S.map encodeSnapshotEntry).length : Int)) == (mapSize C : Int))
         then Except.ok (true, true)
         else match snapLoop C (S.map encodeSnapshotEntry) with
           | .error _ => .error ()
           | .ok b => .ok (true, b)) := rfl
  rw [h1, List.length_map]
  by_cases hsz : S.length = mapSize C
  · have hb : ((S.length : Int) == (mapSize C : Int)) = true :=
      beq_iff_eq.mpr (by exact_mod_cast hsz)
    rw [hb]
    simp only [Bool.not_true, Bool.false_eq_true, if_false]
    rw [snapLoop_encode C S]
    simp [hsz]
  · have hb : ((S.length : Int) == (mapSize C : Int)) = false := by
      rw [beq_eq_false_iff_ne]
      exact_mod_cast hsz
    rw [hb]
    simp [hsz]

/-- C4: the code's staleness test agrees with the spec's set-based wording on
well-formed snapshots (distinct stored paths; the current files need no such
hypothesis since the Map construction deduplicates them), and a missing
snapshot yields `{exists: false, changed: false}`. -/
theorem claim_c4_snapshot (S C : List (String × Int))
    (hS : (S.map Prod.fst).Nodup) :
    getSnapshotState (SnapshotFile.parsed (encodeSnapshot S)) C
      = Except.ok (true, snapshotChangedSpec S C) ∧
    getSnapshotState SnapshotFile.absent C = Except.ok (false, false) := by
  refine ⟨?_, rfl⟩
  rw [getSnapshotState_encode]
  have hcardS : (S.map Prod.fst).toFinset.card = S.length := by
    rw [List.card_toFinset, hS.dedup, List.length_map]
  have hcardC : (C.map Prod.fst).toFinset.card = mapSize C := by
    rw [List.card_toFinset]; rfl
  have hgoal : (if S.length = mapSize C
        then S.any fun e => decide (mapGet C e.1 ≠ some e.2)
        else true) = snapshotChangedSpec S C := by
    unfold snapshotChangedSpec
    by_cases hsz : S.length = mapSize C
    · rw [if_pos hsz]
      cases hany : S.any fun e => decide (mapGet C e.1 ≠ some e.2) with
      | true => rw [Bool.or_true]
      | false =>
        rw [Bool.or_false]
        have hall : ∀ e ∈ S, mapGet C e.1 = some e.2 := by
          intro e he
          by_contra hne2
          have : (S.any fun e => decide (mapGet C e.1 ≠ some e.2)) = true :=
            List.any_eq_true.mpr ⟨e, he, decide_eq_true hne2⟩
          rw [hany] at this
          cases this
        have hsub : (S.map Prod.fst).toFinset ⊆ (C.map Prod.fst).toFinset := by
          intro p hp
          rw [List.mem_toFinset] at hp ⊢
          obtain ⟨e, he, hpe⟩ := List.mem_map.mp hp
          exact hpe ▸ mapGet_some_mem C e.1 e.2 (hall e he)
        have heq : (S.map Prod.fst).toFinset = (C.map Prod.fst).toFinset :=
          Finset.eq_of_subset_of_card_le hsub (by rw [hcardS, hcardC, hsz])
        have : decide ((S.map Prod.fst).toFinset ≠ (C.map Prod.fst).toFinset) = false := by
          simp [heq]
        rw [this]
    · rw [if_neg hsz]
      have hne : (S.map Prod.fst).toFinset ≠ (C.map Prod.fst).toFinset := by
        intro heq
        exact hsz (by rw [← hcardS, heq, hcardC])
      rw [decide_eq_true hne, Bool.true_or]
  rw [hgoal]

/-- C4 witness: snapshot `[a ↦ 1]` against current files `[a ↦ 2]` is stale,
with both path lists duplicate-free. -/
theorem claim_c4_snapshot_witness :
    ([("a", (1 : Int))].map Prod.fst).Nodup ∧
    getSnapshotState (SnapshotFile.parsed (encodeSnapshot [("a", 1)])) [("a", 2)]
      = Except.ok (true, snapshotChangedSpec [("a", 1)] [("a", 2)]) ∧
    snapshotChangedSpec [("a", 1)] [("a", 2)] = true :=
  ⟨by decide,
   (claim_c4_snapshot [("a", 1)] [("a", 2)] (by decide)).1,
   by decide⟩

/-! ### Claim C7 -/

/-- C7 counterexample: a snapshot file containing the valid JSON `{}` (truthy,
but with no `files` field) makes `getSnapshotState` throw a TypeError
(`undefined.length`) instead of degrading to the no-snapshot state. -/
theorem claim_c7_counterexample :
    getSnapshotState (SnapshotFile.parsed (JVal.jobj [])) [] = Except.error () := rfl

theorem foldl_mdStep_no_header (lines : List String) :
    ∀ st : MdState, (∀ l ∈ lines, headerMatch l = none) → st.role = none →
      (lines.foldl mdStep st).role = none ∧ (lines.foldl mdStep st).acc = st.acc := by
  induction lines with
  | nil => intro st _ hr; exact ⟨hr, rfl⟩
  | cons l rest ih =>
    intro st h hr
    have hl : headerMatch l = none := h l (by simp)
    have hrest : ∀ x ∈ rest, headerMatch x = none := fun x hx => h x (by simp [hx])
    have hstep : (mdStep st l).role = st.role ∧ (mdStep st l).acc = st.acc := by
      unfold mdStep
      rw [hl]
      by_cases ht : isTitleLine l <;> simp [ht]
    have := ih (mdStep st l) hrest (hstep.1.trans hr)
    exact ⟨this.1, this.2.trans hstep.2⟩

theorem parseMarkdown_no_header (content : String)
    (h : ∀ l ∈ splitLines content, headerMatch l = none) :
    parseMarkdown content = [] := by
  unfold parseMarkdown
  obtain ⟨h1, h2⟩ := foldl_mdStep_no_header (splitLines content) ⟨none, none, [], []⟩ h rfl
  simp [flushMd, h1, h2]

/-- C7 (amended): a missing or JSON-unparsable snapshot file degrades to
`{exists: false, changed: false}` without throwing, and a chat log whose JSON
parse fails degrades to the markdown parse, which yields the empty entry list
when no line is a turn header — but (per the counterexample) a snapshot whose
JSON parses to a truthy value without a usable `files` array throws instead of
degrading. -/
theorem claim_c7_degrade (C : List (String × Int)) (jsonParse : String → Option JVal)
    (normTs : JVal → Option String) (content : String)
    (hfail : jsonParse (jsTrim content) = none)
    (hnohdr : ∀ l ∈ splitLines content, headerMatch l = none) :
    getSnapshotState SnapshotFile.absent C = Except.ok (false, false) ∧
    getSnapshotState SnapshotFile.unparsable C = Except.ok (false, false) ∧
    parseChatLog jsonParse normTs content = parseMarkdown content ∧
    parseMarkdown content = [] := by
  refine ⟨rfl, rfl, ?_, parseMarkdown_no_header content hnohdr⟩
  unfold parseChatLog
  by_cases hls : legacyStart content
  · simp [hls, hfail]
  · simp [hls]

/-- C7 witness: the content "definitely-not json" is neither valid JSON nor a
markdown log; parsing degrades to the empty list, and snapshot reads degrade
to the no-snapshot state. -/
theorem claim_c7_degrade_witness :
    parseChatLog (fun _ => none) (fun _ => none) "definitely-not json" = [] ∧
    getSnapshotState SnapshotFile.unparsable [] = Except.ok (false, false) := by
  have h := claim_c7_degrade [] (fun _ => none) (fun _ => none) "definitely-not json"
    rfl (by decide)
  exact ⟨h.2.2.1.trans h.2.2.2, h.2.1⟩

/-! ### Claim C6: line-splitting lemmas -/

theorem splitLinesL_ne_nil (cs : List Char) : splitLinesL cs ≠ [] := by
  induction cs using splitLinesL.induct with
  | case1 => simp [splitLinesL]
  | case2 rest ih =>
    rw [show splitLinesL ('\r' :: '\n' :: rest) = [] :: splitLinesL rest from rfl]
    simp
  | case3 rest ih =>
    rw [show splitLinesL ('\n' :: rest) = [] :: splitLinesL rest from rfl]
    simp
  | case4 c rest h1 h2 hnil ih => exact absurd hnil ih
  | case5 c rest h1 h2 l ls hls ih =>
    rw [splitLinesL.eq_4 c rest h1 h2, hls]
    simp

theorem splitLinesL_single (cs : List Char) (hn : '\n' ∉ cs) (hr : '\r' ∉ cs) :
    splitLinesL cs = [cs] := by
  induction cs with
  | nil => rfl
  | cons c rest ih =>
    have hc_n : (c = '\n' → False) := fun h => hn (h ▸ List.mem_cons_self c rest)
    have hc_r : ∀ rest_1, c = '\r' → rest = '\n' :: rest_1 → False :=
      fun _ h _ => hr (h ▸ List.mem_cons_self c rest)
    rw [splitLinesL.eq_4 c rest hc_r hc_n,
        ih (fun h => hn (List.mem_cons_of_mem c h)) (fun h => hr (List.mem_cons_of_mem c h))]

theorem splitLinesL_append (a b : List Char) (hr : '\r' ∉ a) :
    splitLinesL (a ++ '\n' :: b) = splitLinesL a ++ splitLinesL b := by
  induction a with
  | nil => rfl
  | cons c rest ih =>
    have hc_r : c ≠ '\r' := fun h => hr (h ▸ List.mem_cons_self c rest)
    have hrest_r : '\r' ∉ rest := fun h => hr (List.mem_cons_of_mem c h)
    by_cases hc_n : c = '\n'
    · subst hc_n
      show splitLinesL ('\n' :: (rest ++ '\n' :: b)) = _
      rw [show splitLinesL ('\n' :: (rest ++ '\n' :: b))
            = [] :: splitLinesL (rest ++ '\n' :: b) from rfl,
          show splitLinesL ('\n' :: rest) = [] :: splitLinesL rest from rfl,
          ih hrest_r]
      rfl
    · have h1 : ∀ rest_1, c = '\r' → (rest ++ '\n' :: b) = '\n' :: rest_1 → False :=
        fun _ h _ => hc_r h
      have h1' : ∀ rest_1, c = '\r' → rest = '\n' :: rest_1 → False :=
        fun _ h _ => hc_r h
      show splitLinesL (c :: (rest ++ '\n' :: b)) = _
      rw [splitLinesL.eq_4 c _ h1 hc_n, splitLinesL.eq_4 c rest h1' hc_n, ih hrest_r]
      cases hs : splitLinesL rest with
      | nil => exact absurd hs (splitLinesL_ne_nil rest)
      | cons l ls => rfl

theorem joinLines_eq_joinL (ls : List (List Char)) :
    joinLines (ls.map fun l => (⟨l⟩ : String)) = ⟨joinL ls⟩ := by
  induction ls with
  | nil => rfl
  | cons l rest ih =>
    cases rest with
    | nil => rfl
    | cons l2 rest2 =>
      show (⟨l⟩ : String) ++ "\n" ++ joinLines ((l2 :: rest2).map _) = _
      rw [ih]
      apply String.ext
      simp [String.data_append, joinL]

theorem joinL_splitLinesL (cs : List Char) (hr : '\r' ∉ cs) :
    joinL (splitLinesL cs) = cs := by
  induction cs using splitLinesL.induct with
  | case1 => rfl
  | case2 rest ih => exact absurd (List.mem_cons_self '\r' _) hr
  | case3 rest ih =>
    rw [show splitLinesL ('\n' :: rest) = [] :: splitLinesL rest from rfl]
    have hrec := ih (fun h => hr (List.mem_cons_of_mem _ h))
    cases hs : splitLinesL rest with
    | nil => exact absurd hs (splitLinesL_ne_nil rest)
    | cons l ls =>
      rw [hs] at hrec
      show [] ++ '\n' :: joinL (l :: ls) = '\n' :: rest
      rw [List.nil_append, hrec]
  | case4 c rest h1 h2 hnil ih => exact absurd hnil (splitLinesL_ne_nil rest)
  | case5 c rest h1 h2 l ls hls ih =>
    have hrest_r : '\r' ∉ rest := fun h => hr (List.mem_cons_of_mem c h)
    have hrec := ih hrest_r
    rw [hls] at hrec
    rw [splitLinesL.eq_4 c rest h1 h2, hls]
    cases ls with
    | nil =>
      show c :: l = c :: rest
      rw [show joinL [l] = l from rfl] at hrec
      rw [hrec]
    | cons l2 ls2 =>
      show (c :: l) ++ '\n' :: joinL (l2 :: ls2) = c :: rest
      have hx : l ++ '\n' :: joinL (l2 :: ls2) = rest := hrec
      rw [List.cons_append, hx]

/-! ### Claim C6: trim and flush lemmas -/

theorem dropTrailWs_append_ws (c : Char) (hc : isJsWs c = true) :
    ∀ l : List Char, dropTrailWs (l ++ [c]) = dropTrailWs l := by
  intro l
  induction l with
  | nil => simp [dropTrailWs, hc]
  | cons d rest ih =>
    show dropTrailWs (d :: (rest ++ [c])) = _
    unfold dropTrailWs
    rw [ih]

theorem jsTrim_append_nl (s : String) : jsTrim (s ++ "\n") = jsTrim s := by
  unfold jsTrim
  rw [String.data_append]
  rw [show ("\n" : String).data = ['\n'] from rfl]
  rw [List.dropWhile_append]
  by_cases he : (s.data.dropWhile isJsWs).isEmpty
  · simp only [he, if_true]
    rw [List.isEmpty_iff.mp he]
    rfl
  · simp only [he, Bool.false_eq_true, if_false]
    rw [dropTrailWs_append_ws '\n' rfl]

theorem joinLines_append_empty (buf : List String) (h : buf ≠ []) :
    joinLines (buf ++ [""]) = joinLines buf ++ "\n" := by
  induction buf with
  | nil => exact absurd rfl h
  | cons l rest ih =>
    cases rest with
    | nil =>
      show joinLines [l, ""] = l ++ "\n"
      show l ++ "\n" ++ joinLines [""] = l ++ "\n"
      rw [show joinLines [""] = "" from rfl, String.append_empty]
    | cons l2 rest2 =>
      show l ++ "\n" ++ joinLines ((l2 :: rest2) ++ [""]) = l ++ "\n" ++ joinLines (l2 :: rest2) ++ "\n"
      rw [ih (by simp)]
      simp [String.append_assoc]

theorem flushMd_append_empty (st : MdState) :
    flushMd { st with buffer := st.buffer ++ [""] } = flushMd st := by
  obtain ⟨role?, ts?, buf, acc⟩ := st
  cases role? with
  | none => rfl
  | some r =>
    cases buf with
    | nil => rfl
    | cons b bs =>
      show flushMd ⟨some r, ts?, (b :: bs) ++ [""], acc⟩ = flushMd ⟨some r, ts?, b :: bs, acc⟩
      unfold flushMd
      simp only
      rw [joinLines_append_empty (b :: bs) (by simp), jsTrim_append_nl]
      simp

/-- Flushing a buffer holding the lines of a well-behaved content followed by
the blank separator emits exactly that content. -/
theorem flushMd_content (r : Role) (ts : Option String) (acc : List ParsedEntry)
    (c : String) (hr : '\r' ∉ c.data) (htrim : jsTrim c = c) (hne : c ≠ "") :
    flushMd ⟨some r, ts, splitLines c ++ [""], acc⟩ = acc ++ [⟨r, c, ts⟩] := by
  have h1 : flushMd ⟨some r, ts, splitLines c ++ [""], acc⟩
      = flushMd ⟨some r, ts, splitLines c, acc⟩ :=
    flushMd_append_empty ⟨some r, ts, splitLines c, acc⟩
  rw [h1]
  have hjoin : joinLines (splitLines c) = c := by
    unfold splitLines
    rw [joinLines_eq_joinL, joinL_splitLinesL c.data hr]
  unfold flushMd
  simp only
  have hlen : (splitLines c).length > 0 := by
    unfold splitLines
    cases hs : splitLinesL c.data with
    | nil => exact absurd hs (splitLinesL_ne_nil c.data)
    | cons l ls => simp
  rw [if_pos hlen, hjoin, htrim, if_pos (length_pos_of_ne_empty c hne)]

/-! ### Claim C6: header line lemmas -/


theorem isPrefixOf_append_self (a b : List Char) : a.isPrefixOf (a ++ b) = true := by
  induction a with
  | nil => simp [List.isPrefixOf]
  | cons c rest ih =>
    show (c == c && rest.isPrefixOf (rest ++ b)) = true
    simp [ih]

theorem isSuffixOf_append_self (a b : List Char) : b.isSuffixOf (a ++ b) = true := by
  show (b.reverse.isPrefixOf (a ++ b).reverse) = true
  rw [List.reverse_append]
  exact isPrefixOf_append_self b.reverse a.reverse

theorem headerLine_data_user (ts : String) :
    (headerLine ts Role.user).data = "## [".data ++ (ts.data ++ "] user".data) := by
  unfold headerLine
  rw [show roleText Role.user = "user" from rfl]
  simp only [String.data_append, List.append_assoc]
  rfl

theorem headerLine_data_assistant (ts : String) :
    (headerLine ts Role.assistant).data = "## [".data ++ (ts.data ++ "] assistant".data) := by
  unfold headerLine
  rw [show roleText Role.assistant = "assistant" from rfl]
  simp only [String.data_append, List.append_assoc]
  rfl

theorem headerMatchL_build_user (tsd : List Char) (hne : tsd ≠ []) :
    headerMatchL ("## [".data ++ (tsd ++ "] user".data)) = some (tsd, Role.user) := by
  unfold headerMatchL
  rw [isPrefixOf_append_self]
  simp only [if_true]
  have hdrop : ("## [".data ++ (tsd ++ "] user".data)).drop 4 = tsd ++ "] user".data := by
    rw [show (4 : Nat) = ("## [".data).length from rfl]
    exact List.drop_left _ _
  rw [hdrop, isSuffixOf_append_self]
  have hlen : (tsd ++ "] user".data).length = tsd.length + 6 := by
    simp [List.length_append]
  have h7 : decide (7 ≤ (tsd ++ "] user".data).length) = true := by
    rw [hlen]
    have : 1 ≤ tsd.length := List.length_pos.mpr hne
    exact decide_eq_true (by omega)
  rw [h7, Bool.and_true, if_pos rfl]
  have htake : (tsd ++ "] user".data).take ((tsd ++ "] user".data).length - 6) = tsd := by
    rw [hlen]
    rw [show tsd.length + 6 - 6 = tsd.length from by omega]
    exact List.take_left _ _
  rw [htake]

theorem headerMatchL_build_assistant (tsd : List Char) (hne : tsd ≠ []) :
    headerMatchL ("## [".data ++ (tsd ++ "] assistant".data)) = some (tsd, Role.assistant) := by
  unfold headerMatchL
  rw [isPrefixOf_append_self]
  simp only [if_true]
  have hdrop : ("## [".data ++ (tsd ++ "] assistant".data)).drop 4
      = tsd ++ "] assistant".data := by
    rw [show (4 : Nat) = ("## [".data).length from rfl]
    exact List.drop_left _ _
  rw [hdrop]
  have hu : "] user".data.isSuffixOf (tsd ++ "] assistant".data) = false := by
    show ("] user".data.reverse.isPrefixOf (tsd ++ "] assistant".data).reverse) = false
    rw [List.reverse_append]
    rfl
  rw [hu, Bool.false_and, if_neg (by simp)]
  rw [isSuffixOf_append_self]
  have hlen : (tsd ++ "] assistant".data).length = tsd.length + 11 := by
    simp [List.length_append]
  have h12 : decide (12 ≤ (tsd ++ "] assistant".data).length) = true := by
    rw [hlen]
    have : 1 ≤ tsd.length := List.length_pos.mpr hne
    exact decide_eq_true (by omega)
  rw [h12, Bool.and_true, if_pos rfl]
  have htake : (tsd ++ "] assistant".data).take ((tsd ++ "] assistant".data).length - 11)
      = tsd := by
    rw [hlen]
    rw [show tsd.length + 11 - 11 = tsd.length from by omega]
    exact List.take_left _ _
  rw [htake]

theorem headerMatch_build (ts : String) (r : Role)
    (hrole : r = Role.user ∨ r = Role.assistant) (hne : ts.data ≠ []) :
    headerMatch (headerLine ts r) = some (ts, r) := by
  rcases hrole with h | h <;> subst h
  · unfold headerMatch
    rw [headerLine_data_user ts, headerMatchL_build_user ts.data hne]
    rfl
  · unfold headerMatch
    rw [headerLine_data_assistant ts, headerMatchL_build_assistant ts.data hne]
    rfl

/-! ### Claim C6: parser fold lemmas and the round-trip -/



theorem headerLine_no_nl (ts : String) (r : Role) (hn : '\n' ∉ ts.data) :
    '\n' ∉ (headerLine ts r).data := by
  unfold headerLine
  simp only [String.data_append]
  intro h
  rcases List.mem_append.mp h with h1 | h2
  · rcases List.mem_append.mp h1 with h3 | h4
    · rcases List.mem_append.mp h3 with h5 | h6
      · exact absurd h5 (by decide)
      · exact hn h6
    · exact absurd h4 (by decide)
  · cases r <;> exact absurd h2 (by decide)

theorem headerLine_no_cr (ts : String) (r : Role) (hn : '\r' ∉ ts.data) :
    '\r' ∉ (headerLine ts r).data := by
  unfold headerLine
  simp only [String.data_append]
  intro h
  rcases List.mem_append.mp h with h1 | h2
  · rcases List.mem_append.mp h1 with h3 | h4
    · rcases List.mem_append.mp h3 with h5 | h6
      · exact absurd h5 (by decide)
      · exact hn h6
    · exact absurd h4 (by decide)
  · cases r <;> exact absurd h2 (by decide)

theorem map_mk_data (ls : List String) :
    List.map ((fun l => ({ data := l } : String)) ∘ String.data) ls = ls := by
  induction ls with
  | nil => rfl
  | cons l rest ih => simp [ih]

theorem map_data_mk (ls : List (List Char)) :
    List.map (String.data ∘ fun l => ({ data := l } : String)) ls = ls := by
  induction ls with
  | nil => rfl
  | cons l rest ih => simp [ih]

theorem splitLinesL_blocks (es : List (String × Role × String))
    (hgood : ∀ e ∈ es, goodEntry e) :
    splitLinesL (concatStrs (es.map fun e => appendChatLogEntry e.1 e.2.1 e.2.2)).data
      = (es.map fun e => (blockLines e).map String.data).flatten ++ [[]] := by
  induction es with
  | nil => rfl
  | cons e rest ih =>
    obtain ⟨hrole, htsne, htsn, htsr, hcr, htrim, hcne, hlines⟩ := hgood e (by simp)
    have hdata : (concatStrs ((e :: rest).map fun e => appendChatLogEntry e.1 e.2.1 e.2.2)).data
        = (headerLine e.1 e.2.1).data
            ++ '\n' :: (e.2.2.data
            ++ '\n' :: ('\n'
            :: (concatStrs (rest.map fun e => appendChatLogEntry e.1 e.2.1 e.2.2)).data)) := by
      show (appendChatLogEntry e.1 e.2.1 e.2.2 ++ _).data = _
      unfold appendChatLogEntry headerLine
      simp [String.data_append, List.append_assoc]
    rw [hdata]
    rw [splitLinesL_append _ _ (headerLine_no_cr e.1 e.2.1 htsr)]
    rw [splitLinesL_single _ (headerLine_no_nl e.1 e.2.1 htsn) (headerLine_no_cr e.1 e.2.1 htsr)]
    rw [splitLinesL_append _ _ hcr]
    rw [show splitLinesL ('\n'
          :: (concatStrs (rest.map fun e => appendChatLogEntry e.1 e.2.1 e.2.2)).data)
        = [] :: splitLinesL (concatStrs (rest.map fun e => appendChatLogEntry e.1 e.2.1 e.2.2)).data
        from rfl]
    rw [ih (fun x hx => hgood x (by simp [hx]))]
    simp only [blockLines, splitLines, List.map_cons, List.flatten_cons, List.map_append,
      List.map_map, List.cons_append, List.append_assoc]
    rw [map_data_mk]
    simp

theorem splitLines_doc (es : List (String × Role × String))
    (hgood : ∀ e ∈ es, goodEntry e) :
    splitLines (writeChatLogDoc es)
      = "# Chat history" :: "" :: (es.flatMap blockLines ++ [""]) := by
  unfold splitLines writeChatLogDoc
  have hdata : ("# Chat history\n\n"
        ++ concatStrs (es.map fun e => appendChatLogEntry e.1 e.2.1 e.2.2)).data
      = "# Chat history".data
          ++ '\n' :: ('\n'
          :: (concatStrs (es.map fun e => appendChatLogEntry e.1 e.2.1 e.2.2)).data) := by
    simp [String.data_append]
  rw [hdata]
  rw [splitLinesL_append _ _ (by decide)]
  rw [splitLinesL_single "# Chat history".data (by decide) (by decide)]
  rw [show splitLinesL ('\n'
        :: (concatStrs (es.map fun e => appendChatLogEntry e.1 e.2.1 e.2.2)).data)
      = [] :: splitLinesL (concatStrs (es.map fun e => appendChatLogEntry e.1 e.2.1 e.2.2)).data
      from rfl]
  rw [splitLinesL_blocks es hgood]
  simp only [List.singleton_append, List.map_cons, List.map_append]
  congr 1
  congr 1
  congr 1
  · rw [List.map_flatten, List.map_map]
    have hcomp : ((List.map fun l => ({ data := l } : String))
          ∘ fun e => (blockLines e).map String.data) = blockLines := by
      funext e
      show List.map (fun l => ({ data := l } : String)) ((blockLines e).map String.data)
        = blockLines e
      rw [List.map_map]
      exact map_mk_data (blockLines e)
    rw [hcomp]
    rfl

theorem foldl_mdStep_neutral (ls : List String) :
    ∀ st : MdState, (∀ l ∈ ls, headerMatch l = none ∧ isTitleLine l = false) →
      ls.foldl mdStep st = { st with buffer := st.buffer ++ ls } := by
  induction ls with
  | nil => intro st _; simp
  | cons l rest ih =>
    intro st h
    have hl := h l (by simp)
    have hstep : mdStep st l = { st with buffer := st.buffer ++ [l] } := by
      unfold mdStep
      rw [hl.1]
      simp [hl.2]
    rw [List.foldl_cons, hstep, ih _ (fun x hx => h x (by simp [hx]))]
    simp

theorem fold_blocks (es : List (String × Role × String)) :
    ∀ st : MdState, (∀ e ∈ es, goodEntry e) →
      flushMd ((es.flatMap blockLines ++ [""]).foldl mdStep st)
        = flushMd st ++ es.map (fun e => (⟨e.2.1, e.2.2, some e.1⟩ : ParsedEntry)) := by
  induction es with
  | nil =>
    intro st _
    show flushMd (mdStep st "") = flushMd st ++ []
    have h2 : mdStep st "" = { st with buffer := st.buffer ++ [""] } := rfl
    rw [h2, flushMd_append_empty]
    simp
  | cons e rest ih =>
    intro st h
    obtain ⟨hrole, htsne, htsn, htsr, hcr, htrim, hcne, hlines⟩ := h e (by simp)
    have hassoc : (e :: rest).flatMap blockLines ++ [""]
        = headerLine e.1 e.2.1
            :: ((splitLines e.2.2 ++ [""]) ++ (rest.flatMap blockLines ++ [""])) := by
      simp [blockLines]
    rw [hassoc, List.foldl_cons]
    have hstep : mdStep st (headerLine e.1 e.2.1)
        = ⟨some e.2.1, some e.1, [], flushMd st⟩ := by
      unfold mdStep
      rw [headerMatch_build e.1 e.2.1 hrole htsne]
    rw [hstep, List.foldl_append]
    have hneutral : ∀ l ∈ splitLines e.2.2 ++ [""],
        headerMatch l = none ∧ isTitleLine l = false := by
      intro l hl
      rcases List.mem_append.mp hl with h1 | h2
      · exact hlines l h1
      · rw [List.mem_singleton.mp h2]
        exact ⟨rfl, rfl⟩
    rw [foldl_mdStep_neutral _ _ hneutral]
    simp only [List.nil_append]
    rw [ih ⟨some e.2.1, some e.1, splitLines e.2.2 ++ [""], flushMd st⟩
        (fun x hx => h x (by simp [hx]))]
    rw [flushMd_content e.2.1 (some e.1) (flushMd st) e.2.2 hcr htrim hcne]
    simp

/-- C6 counterexample: a single logged turn with empty content serializes to
`# Chat history\n\n## [ts] user\n\n\n`, which parses back to NO entries (the
trimmed buffer is empty and the flush drops it), so the round-trip does not
return the original role/content sequence. -/
theorem claim_c6_counterexample :
    parseChatLog (fun _ => none) (fun _ => none)
        (writeChatLogDoc [("2024-01-01T00:00:00.000Z", Role.user, "")]) = [] ∧
    ([] : List ParsedEntry)
      ≠ [⟨Role.user, "", some "2024-01-01T00:00:00.000Z"⟩] :=
  ⟨rfl, by decide⟩

/-- C6 (amended): serializing a sequence of turns via the append format and
parsing the document back yields the same sequence of roles and contents,
provided each turn satisfies `goodEntry`: a `user`/`assistant` role, a
non-empty timestamp without line breaks, and a trim-invariant non-empty
content free of carriage returns none of whose lines is itself a header line
or starts with the title marker. -/
theorem claim_c6_roundtrip (es : List (String × Role × String))
    (jsonParse : String → Option JVal) (normTs : JVal → Option String)
    (hgood : ∀ e ∈ es, goodEntry e) :
    (parseChatLog jsonParse normTs (writeChatLogDoc es)).map (fun p => (p.role, p.content))
      = es.map fun e => (e.2.1, e.2.2) := by
  have hlegacy : legacyStart (writeChatLogDoc es) = false := by
    unfold legacyStart writeChatLogDoc
    rw [String.data_append]
    rfl
  unfold parseChatLog
  rw [hlegacy]
  simp only [Bool.false_eq_true, if_false]
  unfold parseMarkdown
  rw [splitLines_doc es hgood]
  rw [List.foldl_cons, List.foldl_cons]
  rw [show mdStep ⟨none, none, [], []⟩ "# Chat history" = ⟨none, none, [], []⟩ from rfl]
  rw [show mdStep ⟨none, none, [], []⟩ "" = ⟨none, none, [""], []⟩ from rfl]
  rw [fold_blocks es ⟨none, none, [""], []⟩ hgood]
  rw [show flushMd ⟨none, none, [""], []⟩ = [] from rfl]
  simp

/-- C6 witness: two well-behaved turns (one multi-line) round-trip to the same
roles and contents. -/
theorem claim_c6_roundtrip_witness :
    (∀ e ∈ [("t1", Role.user, "Hello"), ("t2", Role.assistant, "Line1\nLine2")], goodEntry e) ∧
    (parseChatLog (fun _ => none) (fun _ => none)
        (writeChatLogDoc [("t1", Role.user, "Hello"), ("t2", Role.assistant, "Line1\nLine2")])).map
        (fun p => (p.role, p.content))
      = [(Role.user, "Hello"), (Role.assistant, "Line1\nLine2")] :=
  ⟨by decide,
   claim_c6_roundtrip [("t1", Role.user, "Hello"), ("t2", Role.assistant, "Line1\nLine2")]
     (fun _ => none) (fun _ => none) (by decide)⟩

end FourSense
